import Mathlib

/-!
Verification of the detection-and-adjudication core of the `oxidized-skills`
skill auditor, shallowly embedded from the Rust sources:

- `src/finding.rs`       — findings, suppression matching, report aggregation
- `src/config.rs`        — `Suppression` policy entries
- `src/scanners/mod.rs`  — inline-suppression marker detection
- `src/scanners/bash_patterns.rs`   — URL host extraction, domain allowlist
- `src/scanners/package_install.rs` — registry allowlist, snippet truncation
- `src/scanners/prompt.rs`          — prompt-injection line scanning

Rust values are modelled as follows: `usize` as `Nat` (with the `2^64`
overflow bound made explicit where `str::parse::<usize>` can fail),
`String`/`&str` as Lean `String` manipulated through its `List Char` data,
`PathBuf` as the `String` spelling of the path (component splitting modelled
explicitly), fallible operations as `Option`.
-/

/-! ## Character classes (Rust `char::is_whitespace`, regex `\s`, `\w`) -/

/-- Unicode `White_Space` property, as used by Rust `char::is_whitespace`,
`str::trim`, and the `regex` crate's `\s` class (code points listed by
their scalar values). -/
def isWsChar (c : Char) : Bool :=
  (0x09 ≤ c.toNat && c.toNat ≤ 0x0D) || c.toNat == 0x20 ||
  c.toNat == 0x85 || c.toNat == 0xA0 || c.toNat == 0x1680 ||
  (0x2000 ≤ c.toNat && c.toNat ≤ 0x200A) ||
  c.toNat == 0x2028 || c.toNat == 0x2029 || c.toNat == 0x202F ||
  c.toNat == 0x205F || c.toNat == 0x3000

/-- Word character for the regex `\b` boundary (ASCII fragment of `\w`:
letters, digits, underscore; the scanned shell text is ASCII). -/
def isWordChar (c : Char) : Bool :=
  c.isAlpha || c.isDigit || c == '_'

/-- Drops leading whitespace, as the left half of Rust `str::trim`. -/
def dropLeadingWs (cs : List Char) : List Char :=
  cs.dropWhile isWsChar

/-- Drops trailing whitespace, as the right half of Rust `str::trim`. -/
def dropTrailingWs (cs : List Char) : List Char :=
  (cs.reverse.dropWhile isWsChar).reverse

/-- Rust `str::trim` on the character list. -/
def trimChars (cs : List Char) : List Char :=
  dropTrailingWs (dropLeadingWs cs)

/-- Rust `str::trim` producing a `String`. -/
def trimStr (s : String) : String :=
  String.mk (trimChars s.data)

/-- Case folding of one character as done by the regex crate's `(?i)` flag and
by `str::to_lowercase` on the ASCII text the scanners handle. -/
def lowerChar (c : Char) : Char := c.toLower

/-- Rust `str::to_lowercase`, char by char. -/
def lowerStr (cs : List Char) : String :=
  String.mk (cs.map lowerChar)

/-- Strips `pat` (given already lowercased) from the front of `cs`,
comparing case-insensitively; returns the remainder on success. -/
def stripPrefixCI : List Char → List Char → Option (List Char)
  | [], cs => some cs
  | _ :: _, [] => none
  | p :: ps, c :: cs => if lowerChar c == p then stripPrefixCI ps cs else none

/-- Strips `pat` from the front of `cs` by exact character equality
(Rust `str::strip_prefix` semantics on the reversed list is reused for
`strip_suffix`); returns the remainder on success. -/
def dropPrefixExact : List Char → List Char → Option (List Char)
  | [], cs => some cs
  | _ :: _, [] => none
  | p :: ps, c :: cs => if c == p then dropPrefixExact ps cs else none

/-- Rust `str::strip_suffix`: `some p` when `s = p ++ t`. -/
def stripSuffixStr (s t : String) : Option String :=
  (dropPrefixExact t.data.reverse s.data.reverse).map (fun r => String.mk r.reverse)

/-! ## Data model (`src/finding.rs`, `src/config.rs`) -/

/-- Severity level for a security finding (`finding.rs`). -/
inductive Severity where
  | error
  | warning
  | info
deriving DecidableEq, Repr

/-- A single security finding detected by a scanner (`finding.rs`).
`PathBuf` is modelled as the `String` spelling of the path. -/
structure Finding where
  rule_id : String
  message : String
  severity : Severity
  file : Option String
  line : Option Nat
  column : Option Nat
  scanner : String
  snippet : Option String
  suppressed : Bool
  suppression_reason : Option String
  remediation : Option String
deriving DecidableEq, Repr

/-- Results from running a single scanner (`finding.rs`). -/
structure ScanResult where
  scanner_name : String
  findings : List Finding
  files_scanned : Nat
  skipped : Bool
  skip_reason : Option String
  error : Option String
  duration_ms : Nat
deriving DecidableEq, Repr

/-- A user-authored suppression policy entry (`config.rs`). -/
structure Suppression where
  rule : String
  file : String
  lines : Option String
  reason : String
  ticket : Option String
deriving DecidableEq, Repr

/-- Overall outcome of an audit (`finding.rs`). -/
inductive AuditStatus where
  | passed
  | warning
  | failed
deriving DecidableEq, Repr

/-- Risk level derived from the nature of the findings (`finding.rs`). -/
inductive RiskLevel where
  | low
  | medium
  | high
  | critical
deriving DecidableEq, Repr

/-! ## Path component matching (Rust `std::path::Path::ends_with`)

`find_suppression` compares paths with `Path::ends_with`, which works on
path *components*, not raw bytes.  Unix component splitting: split on `/`,
drop empty pieces (repeated or trailing separators), drop `.` pieces except
a leading one, and record a root marker for absolute paths.  The marker is
spelt `"/"` here, which cannot collide with a normal component. -/

/-- Splits a character list at every occurrence of `sep` (Rust
`str::split(sep)`, which keeps empty pieces). -/
def splitOnChar (sep : Char) : List Char → List (List Char)
  | [] => [[]]
  | c :: rest =>
    match splitOnChar sep rest with
    | [] => [[c]]
    | h :: t => if c == sep then [] :: h :: t else (c :: h) :: t

/-- Component list of a Unix path, mirroring `Path::components`. -/
def pathComponents (s : String) : List String :=
  let parts := ((splitOnChar '/' s.data).filter (fun p => !p.isEmpty)).map
    (fun p => String.mk p)
  let isAbs := match s.data with
    | '/' :: _ => true
    | _ => false
  if isAbs then
    "/" :: parts.filter (fun p => p != ".")
  else
    match parts with
    | "." :: rest => "." :: rest.filter (fun p => p != ".")
    | _ => parts.filter (fun p => p != ".")

/-- Rust `Path::ends_with`: the suffix's components are a suffix of the
path's components. -/
def pathEndsWith (file suffixPath : String) : Bool :=
  (pathComponents suffixPath).isSuffixOf (pathComponents file)

/-! ## Line-range parsing and suppression matching (`finding.rs`) -/

/-- Rust `str::parse::<usize>`: an optional leading `+`, then one or more
ASCII digits, rejecting overflow past `2^64 - 1` (64-bit `usize`). -/
def parseUsize (cs : List Char) : Option Nat :=
  let digits := match cs with
    | '+' :: rest => rest
    | _ => cs
  if digits.isEmpty then none
  else if digits.all (fun c => c.isDigit) then
    let v := digits.foldl (fun a c => a * 10 + (c.toNat - 48)) 0
    if v < 2 ^ 64 then some v else none
  else none

/-- The `parse_line_range` helper of `finding.rs`: `"a-b"` with `a ≤ b`,
or a single line `"n"` meaning `(n, n)`; anything else is `none`. -/
def parse_line_range (lines : String) : Option (Nat × Nat) :=
  match splitOnChar '-' lines.data with
  | [a, b] =>
    match parseUsize a, parseUsize b with
    | some s, some e => if s > e then none else some (s, e)
    | _, _ => none
  | [a] => (parseUsize a).map (fun l => (l, l))
  | _ => none

/-- The per-entry predicate inside `find_suppression` (`finding.rs`
lines 358-393): rule ids equal, file matched by path components (empty
entry file is a wildcard; a file-less finding needs an empty entry file),
and, when both a range and a finding line are present, a valid containing
range. -/
def suppressionMatches (finding : Finding) (s : Suppression) : Bool :=
  (s.rule == finding.rule_id) &&
  (match finding.file with
   | some file => pathEndsWith file s.file
   | none => s.file == "") &&
  (match s.lines, finding.line with
   | some ls, some line =>
     match parse_line_range ls with
     | some (a, b) => decide (a ≤ line) && decide (line ≤ b)
     | none => false
   | _, _ => true)

/-- The `find_suppression` helper of `finding.rs`: first matching entry. -/
def find_suppression (finding : Finding) (suppressions : List Suppression) :
    Option Suppression :=
  suppressions.find? (fun s => suppressionMatches finding s)

/-! ## URL host extraction (`bash_patterns.rs` RE_URL_HOST,
`package_install.rs` RE_REGISTRY_HOST)

Both scanners compile the character-identical pattern

  `(?i)https?://(?:[^@/?#\s]+@)?([^/?#:\s]+)`

so one extraction model serves both.  The regex semantics at a match
position, under the engine's leftmost-first (Perl-like) group selection:
strip `http://` or `https://` case-insensitively; the greedy optional
userinfo group is taken exactly when its maximal run of characters
outside `@ / ? # \s` is non-empty, is immediately followed by `@`, and a
non-empty host capture (characters outside `/ ? # : \s`) follows the
`@`; otherwise the engine backtracks out of the group and the capture
starts at the scheme's end — where `@` is a legal host character, so
`https://user@/x` captures the host `user@`. -/

/-- Character allowed inside the userinfo group `[^@/?#\s]`. -/
def userinfoChar (c : Char) : Bool :=
  !(c == '@' || c == '/' || c == '?' || c == '#' || isWsChar c)

/-- Character allowed inside the host capture `[^/?#:\s]`. -/
def hostChar (c : Char) : Bool :=
  !(c == '/' || c == '?' || c == '#' || c == ':' || isWsChar c)

/-- Matches `https?://` case-insensitively at the head of `cs`, returning
the remainder (the greedy optional `s` cannot overlap with `:`). -/
def schemeRest (cs : List Char) : Option (List Char) :=
  match stripPrefixCI "https://".data cs with
  | some r => some r
  | none => stripPrefixCI "http://".data cs

/-- The host capture `[^/?#:\s]+` taken from `start`: the maximal run of
host characters, which must be non-empty for the pattern to match. -/
def hostFrom (start : List Char) : Option (List Char × List Char) :=
  match start.takeWhile hostChar with
  | [] => none
  | c :: t => some (c :: t, start.drop (c :: t).length)

/-- Matches the authority part after the scheme.  The userinfo group is
consumed only when its non-empty run is followed by `@` and a non-empty
host capture; in every other case (no `@`, empty userinfo run, or empty
post-`@` host) the group is skipped — by greedy-group backtracking in
the last case — and the capture starts at the scheme's end.  Returns the
captured host and the remainder after it. -/
def hostAt (cs : List Char) : Option (List Char × List Char) :=
  match cs.drop (cs.takeWhile userinfoChar).length with
  | '@' :: rest =>
    if (cs.takeWhile userinfoChar).isEmpty then hostFrom cs
    else
      match rest.takeWhile hostChar with
      | [] => hostFrom cs
      | c :: t => some (c :: t, rest.drop (c :: t).length)
  | _ => hostFrom cs

/-- Leftmost-to-right scan producing every captured host, lowercased, as
`Regex::captures_iter` does; the fuel argument bounds the recursion and is
instantiated with the character count, which every step strictly consumes. -/
def findHostsAux : Nat → List Char → List String
  | 0, _ => []
  | _, [] => []
  | fuel + 1, c :: cs =>
    match schemeRest (c :: cs) with
    | some rest =>
      match hostAt rest with
      | some (h, after) => lowerStr h :: findHostsAux fuel after
      | none => findHostsAux fuel cs
    | none => findHostsAux fuel cs

/-- Every URL host found on the line (lowercased), in match order. -/
def findHosts (line : String) : List String :=
  findHostsAux line.data.length line.data

/-! ## Domain allowlist (`bash_patterns.rs` `domain_is_allowed`) -/

/-- Body of the per-entry closure of `domain_is_allowed`
(`bash_patterns.rs` lines 134-139): exact entry match, or stripping the
entry as a suffix leaves a prefix ending in `.`. -/
def bashHostAccept (host entry : String) : Bool :=
  host == entry ||
    (match stripSuffixStr host entry with
     | some p =>
       match p.data.getLast? with
       | some c => c == '.'
       | none => false
     | none => false)

/-- The host-level acceptance test inside the URL loop of
`domain_is_allowed`: any already-filtered entry accepts the host. -/
def bashHostAllowed (entries : List String) (host : String) : Bool :=
  entries.any (fun entry => bashHostAccept host entry)

/-- The URL loop of `domain_is_allowed` (`bash_patterns.rs` lines 121-146),
threading the `found_any` flag: empty hosts are skipped, a disallowed host
returns `false` immediately, and the final result is `found_any`. -/
def domainLoop (entries : List String) (found_any : Bool) :
    List String → Bool
  | [] => found_any
  | host :: rest =>
    if host == "" then domainLoop entries found_any rest
    else if bashHostAllowed entries host then domainLoop entries true rest
    else false

/-- The `domain_is_allowed` function of `bash_patterns.rs`: true when the
line carries at least one URL host and every one is allowlisted.  Empty
allowlist entries are filtered out first. -/
def domain_is_allowed (line : String) (allowed : List String) : Bool :=
  let entries := allowed.filter (fun entry => !(entry == ""))
  domainLoop entries false (findHosts line)

/-! ## Registry allowlist (`package_install.rs` lines 218-250) -/

/-- Body of the per-entry closure of the registry check
(`package_install.rs` lines 230-235) — textually the same logic as the
closure in `domain_is_allowed`, duplicated in the source. -/
def pkgHostAccept (host entry : String) : Bool :=
  host == entry ||
    (match stripSuffixStr host entry with
     | some p =>
       match p.data.getLast? with
       | some c => c == '.'
       | none => false
     | none => false)

/-- The registry-URL allowlist decision of `PackageInstallScanner::scan`
(`package_install.rs` lines 224-235): extract the first host of the URL
via RE_REGISTRY_HOST (empty when none), require it non-empty, and accept
it by any non-empty registry entry. -/
def pkgRegistryHostAllowed (url_str : String) (registries : List String) :
    Bool :=
  let allowed_registries := registries.filter (fun r => !(r == ""))
  let host := ((findHosts url_str).head?).getD ""
  !(host == "") &&
    allowed_registries.any (fun entry => pkgHostAccept host entry)

/-! ## Inline suppression and comment skipping (`scanners/mod.rs`,
`bash_patterns.rs` lines 340-349, `package_install.rs` lines 152-159) -/

/-- Strips `pat` (given already lowercased) from the END of `cs`,
comparing case-insensitively; returns the front remainder on success. -/
def stripSuffixCI (pat cs : List Char) : Option (List Char) :=
  (stripPrefixCI pat.reverse cs.reverse).map List.reverse

/-- The `is_suppressed_inline` helper of `scanners/mod.rs`: the line,
up to trailing whitespace, ends in `#`, optional whitespace, `audit` or
`oxidized-skills` (case-insensitive), then `:ignore` — the search form of
the anchored pattern `(?i)\s*#\s*(audit|oxidized-skills):ignore\s*$`. -/
def is_suppressed_inline (line : String) : Bool :=
  let cs := dropTrailingWs line.data
  match stripSuffixCI ":ignore".data cs with
  | none => false
  | some rest =>
    let checkMarker (marker : List Char) : Bool :=
      match stripSuffixCI marker rest with
      | none => false
      | some r =>
        match (dropTrailingWs r).getLast? with
        | some c => c == '#'
        | none => false
    checkMarker "audit".data || checkMarker "oxidized-skills".data

/-- The comment-skip test of the shell scanners: the trimmed line starts
with `#` but is not a `#!` interpreter directive. -/
def commentSkip (line : String) : Bool :=
  match trimChars line.data with
  | '#' :: '!' :: _ => false
  | '#' :: _ => true
  | _ => false

/-! ## Regex matchers used by the modelled rules

Each `reXxx` function is the `is_match` semantics of the corresponding
`LazyLock<Regex>` static, implemented as a left-to-right scan over match
start positions. -/

/-- Consumes `\s+`: at least one whitespace character, greedily. -/
def wsPlus (cs : List Char) : Option (List Char) :=
  let ws := cs.takeWhile isWsChar
  if ws.isEmpty then none else some (cs.drop ws.length)

/-- RE_CAT_H1 `(?i)(curl|wget)\s+https?://` tried at one start position. -/
def catH1At (cs : List Char) : Bool :=
  match (match stripPrefixCI "curl".data cs with
         | some r => some r
         | none => stripPrefixCI "wget".data cs) with
  | some r =>
    match wsPlus r with
    | some r2 => (schemeRest r2).isSome
    | none => false
  | none => false

/-- Scan driver for RE_CAT_H1 over every start position. -/
def catH1MatchAux : List Char → Bool
  | [] => false
  | c :: cs => catH1At (c :: cs) || catH1MatchAux cs

/-- RE_CAT_H1 `is_match` (`bash_patterns.rs` lines 92-93). -/
def reCatH1Match (line : String) : Bool :=
  catH1MatchAux line.data

/-- True when the character before the match position is absent or not a
word character (the `\b` boundary before a word-character pattern head). -/
def notWordBefore : Option Char → Bool
  | some c => !(isWordChar c)
  | none => true

/-- True when the next character is absent or not a word character (the
`\b` boundary after a word-character pattern tail). -/
def wordBoundaryAfter : List Char → Bool
  | [] => true
  | c :: _ => !(isWordChar c)

/-- Generic scan over match start positions that tracks the previous
character so `\b` can be evaluated at the match head. -/
def scanWithPrev (tryAt : Option Char → List Char → Bool) :
    Option Char → List Char → Bool
  | prev, [] => tryAt prev []
  | prev, c :: cs => tryAt prev (c :: cs) || scanWithPrev tryAt (some c) cs

/-- RE_NPM_INSTALL `(?i)\bnpm\s+(install|i|add)\b` at one position. -/
def npmTryAt (prev : Option Char) (cs : List Char) : Bool :=
  notWordBefore prev &&
  (match stripPrefixCI "npm".data cs with
   | some r =>
     match wsPlus r with
     | some r2 =>
       ["install", "i", "add"].any (fun w =>
         match stripPrefixCI w.data r2 with
         | some r3 => wordBoundaryAfter r3
         | none => false)
     | none => false
   | none => false)

/-- RE_NPM_INSTALL `is_match` (`package_install.rs` lines 36-37). -/
def reNpmInstall (line : String) : Bool :=
  scanWithPrev npmTryAt none line.data

/-- RE_BUN_ADD `(?i)\bbun\s+(add|install)\b` at one position. -/
def bunTryAt (prev : Option Char) (cs : List Char) : Bool :=
  notWordBefore prev &&
  (match stripPrefixCI "bun".data cs with
   | some r =>
     match wsPlus r with
     | some r2 =>
       ["add", "install"].any (fun w =>
         match stripPrefixCI w.data r2 with
         | some r3 => wordBoundaryAfter r3
         | none => false)
     | none => false
   | none => false)

/-- RE_BUN_ADD `is_match` (`package_install.rs` lines 39-40). -/
def reBunAdd (line : String) : Bool :=
  scanWithPrev bunTryAt none line.data

/-- Tail `\s+install\b` of RE_PIP_INSTALL. -/
def pipTail (cs : List Char) : Bool :=
  match wsPlus cs with
  | some r =>
    match stripPrefixCI "install".data r with
    | some r2 => wordBoundaryAfter r2
    | none => false
  | none => false

/-- RE_PIP_INSTALL `(?i)\bpip3?\s+install\b` at one position (the greedy
optional `3` backtracks when the tail fails). -/
def pipTryAt (prev : Option Char) (cs : List Char) : Bool :=
  notWordBefore prev &&
  (match stripPrefixCI "pip".data cs with
   | some r =>
     match r with
     | '3' :: r2 => pipTail r2 || pipTail r
     | _ => pipTail r
   | none => false)

/-- RE_PIP_INSTALL `is_match` (`package_install.rs` lines 42-43). -/
def rePipInstall (line : String) : Bool :=
  scanWithPrev pipTryAt none line.data

/-- RE_LATEST `@latest\b` (case-sensitive) at one position. -/
def latestTryAt (_ : Option Char) (cs : List Char) : Bool :=
  match dropPrefixExact "@latest".data cs with
  | some r => wordBoundaryAfter r
  | none => false

/-- RE_LATEST `is_match` (`package_install.rs` line 45). -/
def reLatest (line : String) : Bool :=
  scanWithPrev latestTryAt none line.data

/-- RE_HAS_REGISTRY `(?i)--registry[=\s]` at one position. -/
def hasRegistryTryAt (_ : Option Char) (cs : List Char) : Bool :=
  match stripPrefixCI "--registry".data cs with
  | some (c :: _) => c == '=' || isWsChar c
  | _ => false

/-- RE_HAS_REGISTRY `is_match` (`package_install.rs` lines 48-49). -/
def reHasRegistry (line : String) : Bool :=
  scanWithPrev hasRegistryTryAt none line.data

/-- RE_HAS_INDEX_URL `(?i)(--index-url\s|-i\s)` at one position. -/
def hasIndexTryAt (_ : Option Char) (cs : List Char) : Bool :=
  (match stripPrefixCI "--index-url".data cs with
   | some (c :: _) => isWsChar c
   | _ => false) ||
  (match stripPrefixCI "-i".data cs with
   | some (c :: _) => isWsChar c
   | _ => false)

/-- RE_HAS_INDEX_URL `is_match` (`package_install.rs` lines 51-52). -/
def reHasIndexUrl (line : String) : Bool :=
  scanWithPrev hasIndexTryAt none line.data

/-- RE_REGISTRY_URL `(?i)--registry[=\s](https?://\S+)` tried at one
position; on success returns the captured group: the maximal non-empty
whitespace-free run starting at the scheme. -/
def regUrlTryAt (cs : List Char) : Option (List Char) :=
  match stripPrefixCI "--registry".data cs with
  | some (c :: r) =>
    if c == '=' || isWsChar c then
      match schemeRest r with
      | some afterScheme =>
        match afterScheme with
        | a :: _ =>
          if isWsChar a then none
          else some (r.takeWhile (fun ch => !isWsChar ch))
        | [] => none
      | none => none
    else none
  | _ => none

/-- Leftmost RE_REGISTRY_URL capture over the line. -/
def regUrlCaptureAux : List Char → Option (List Char)
  | [] => none
  | c :: cs =>
    match regUrlTryAt (c :: cs) with
    | some u => some u
    | none => regUrlCaptureAux cs

/-- First capture of RE_REGISTRY_URL (`package_install.rs` lines 54-55,
`captures(line)` at line 218). -/
def registryUrlCapture (line : String) : Option String :=
  (regUrlCaptureAux line.data).map String.mk

/-- Tail `(previous|prior|above)\s+(instructions?|prompts?|rules?)` of
RE_P01; only the noun stem decides a match because nothing follows the
optional plural `s`. -/
def p01Tail (cs : List Char) : Bool :=
  ["previous", "prior", "above"].any (fun w =>
    match stripPrefixCI w.data cs with
    | some r =>
      match wsPlus r with
      | some r2 =>
        ["instruction", "prompt", "rule"].any (fun noun =>
          (stripPrefixCI noun.data r2).isSome)
      | none => false
    | none => false)

/-- RE_P01 `(?i)ignore\s+(all\s+)?(previous|prior|above)\s+(instructions?|prompts?|rules?)`
at one position; the greedy optional `(all\s+)?` backtracks on failure. -/
def p01At (cs : List Char) : Bool :=
  match stripPrefixCI "ignore".data cs with
  | some r =>
    match wsPlus r with
    | some r1 =>
      (match stripPrefixCI "all".data r1 with
       | some r2 =>
         (match wsPlus r2 with
          | some r3 => p01Tail r3
          | none => false) || p01Tail r1
       | none => p01Tail r1)
    | none => false
  | none => false

/-- Scan driver for RE_P01 over every start position. -/
def p01ScanAux : List Char → Bool
  | [] => false
  | c :: cs => p01At (c :: cs) || p01ScanAux cs

/-- RE_P01 `is_match` (`prompt.rs` lines 19-22). -/
def reP01Match (line : String) : Bool :=
  p01ScanAux line.data

/-! ## Snippet truncation (`bash_patterns.rs` lines 360-371,
`package_install.rs` `make_snippet`, `prompt.rs` lines 343-352)

Rust `line.len()` is the UTF-8 byte length; `char_indices().nth(117)`
yields the byte offset of character 117 (0-based), so the slice
`&line[..cut]` keeps exactly the first 117 characters (or the whole line
when it has at most 117 characters, via `unwrap_or(line.len())`). -/

/-- UTF-8 byte length of a character list (Rust `str::len`). -/
def byteLenL (cs : List Char) : Nat :=
  cs.foldl (fun n c => n + c.utf8Size) 0

/-- UTF-8 byte length of a string (Rust `str::len`). -/
def byteLen (s : String) : Nat :=
  byteLenL s.data

/-- The byte offset at which the snippet code slices:
`char_indices().nth(117).map(|(i, _)| i).unwrap_or(line.len())`. -/
def cutIndex (line : String) : Nat :=
  if line.data.length > 117 then byteLenL (line.data.take 117)
  else byteLenL line.data

/-- A byte offset is a character boundary of `line` when it is the total
byte length of some character prefix. -/
def isCharBoundary (line : String) (i : Nat) : Prop :=
  ∃ k, i = byteLenL (line.data.take k)

/-- The shared truncation step: lines longer than 120 bytes are cut to
their first 117 characters plus `"..."`; shorter lines are kept whole
(`bash_patterns.rs` lines 360-371, `prompt.rs` lines 343-352). -/
def truncateSnippet (line : String) : String :=
  if byteLen line > 120 then String.mk (line.data.take 117) ++ "..."
  else line

/-- The `make_snippet` helper of `package_install.rs` (lines 62-76):
trim first, then apply the same cap-117-characters truncation. -/
def make_snippet (line : String) : String :=
  let trimmed := trimStr line
  if byteLen trimmed > 120 then String.mk (trimmed.data.take 117) ++ "..."
  else trimmed

/-! ## Per-line scanning (`bash_patterns.rs` lines 337-388,
`package_install.rs` lines 149-251, `prompt.rs` lines 336-369) -/

/-- A compiled rule of the static pattern tables; models both the
`BashPattern` and the `PromptPattern` structs, whose fields coincide.
`regexMatch` is the compiled regex's `is_match`. -/
structure PatternRule where
  id : String
  severity : Severity
  regexMatch : String → Bool
  message : String
  remediation : String

/-- The CAT-H1 catalog entry (`bash_patterns.rs` lines 283-289). -/
def catH1Rule : PatternRule where
  id := "bash/CAT-H1"
  severity := .info
  regexMatch := reCatH1Match
  message := "Outbound HTTP call detected — verify domain is in allowed list"
  remediation := "Ensure domain is in oxidized-skills.toml [allowlist.domains]"

/-- The P01 catalog entry (`prompt.rs` lines 129-135). -/
def promptP01Rule : PatternRule where
  id := "prompt/override-ignore"
  severity := .error
  regexMatch := reP01Match
  message := "Prompt injection: instruction override — 'ignore previous instructions'"
  remediation := "Remove instruction override language from skill description"

/-- The `Finding` built by `BashPatternScanner::scan` on a pattern match
(`bash_patterns.rs` lines 373-385); the snippet is the truncated line,
trimmed. -/
def bashFindingOf (p : PatternRule) (file : String) (line_num : Nat)
    (line : String) : Finding where
  rule_id := p.id
  message := p.message
  severity := p.severity
  file := some file
  line := some line_num
  column := none
  scanner := "bash_patterns"
  snippet := some (trimStr (truncateSnippet line))
  suppressed := false
  suppression_reason := none
  remediation := some p.remediation

/-- One line of `BashPatternScanner::scan` (`bash_patterns.rs` lines
337-388): skip pure comments (not shebangs), skip inline-suppressed
lines, then emit one finding per matching pattern — except that a
CAT-H1 match is dropped when `domain_is_allowed` holds. -/
def bashLineFindings (patterns : List PatternRule) (domains : List String)
    (file : String) (line_num : Nat) (line : String) : List Finding :=
  if commentSkip line then []
  else if is_suppressed_inline line then []
  else
    patterns.filterMap (fun p =>
      if p.regexMatch line then
        if p.id == "bash/CAT-H1" && domain_is_allowed line domains then none
        else some (bashFindingOf p file line_num line)
      else none)

/-- The `Finding` built by `PromptScanner::scan` on a pattern match
(`prompt.rs` lines 354-366). -/
def promptFindingOf (p : PatternRule) (file : String) (line_num : Nat)
    (line : String) : Finding where
  rule_id := p.id
  message := p.message
  severity := p.severity
  file := some file
  line := some line_num
  column := none
  scanner := "prompt"
  snippet := some (trimStr (truncateSnippet line))
  suppressed := false
  suppression_reason := none
  remediation := some p.remediation

/-- One line of `PromptScanner::scan` (`prompt.rs` lines 336-369): every
matching pattern emits a finding; the loop has no comment skip and no
inline-suppression check. -/
def promptLineFindings (patterns : List PatternRule) (file : String)
    (line_num : Nat) (line : String) : List Finding :=
  patterns.filterMap (fun p =>
    if p.regexMatch line then some (promptFindingOf p file line_num line)
    else none)

/-- The `Finding` built by the `emit` helper of `package_install.rs`
(lines 79-102). -/
def pkgFindingOf (id : String) (severity : Severity)
    (message remediation : String) (file : String) (line_num : Nat)
    (line : String) : Finding where
  rule_id := id
  message := message
  severity := severity
  file := some file
  line := some line_num
  column := none
  scanner := "package_install"
  snippet := some (make_snippet line)
  suppressed := false
  suppression_reason := none
  remediation := some remediation

/-- One line of `PackageInstallScanner::scan` (`package_install.rs` lines
149-251): skip pure comments (not shebangs), skip inline-suppressed lines,
then run the five package rules in source order. -/
def pkgLineFindings (registries : List String) (file : String)
    (line_num : Nat) (line : String) : List Finding :=
  if commentSkip line then []
  else if is_suppressed_inline line then []
  else
    (if reNpmInstall line && !reHasRegistry line then
      [pkgFindingOf "pkg/F1-npm" .warning
        "npm install without --registry — may pull from unexpected source"
        "Specify --registry explicitly: npm install --registry https://registry.npmjs.org"
        file line_num line]
     else []) ++
    (if reBunAdd line && !reHasRegistry line then
      [pkgFindingOf "pkg/F1-bun" .warning
        "bun add without --registry — may pull from unexpected source"
        "Specify --registry explicitly" file line_num line]
     else []) ++
    (if rePipInstall line && !reHasIndexUrl line then
      [pkgFindingOf "pkg/F1-pip" .warning
        "pip install without --index-url — may pull from unexpected source"
        "Specify --index-url explicitly: pip install --index-url https://pypi.org/simple/"
        file line_num line]
     else []) ++
    (if reLatest line then
      [pkgFindingOf "pkg/F2-unpinned" .warning
        "@latest install — unpinned, supply chain risk on future runs"
        "Pin to an exact version: @1.2.3" file line_num line]
     else []) ++
    (match registryUrlCapture line with
     | some url =>
       if pkgRegistryHostAllowed url registries then []
       else
         [pkgFindingOf "pkg/F3-registry" .warning
           ("Registry URL not in allowlist: " ++ url)
           "Add registry to oxidized-skills.toml [allowlist.registries] or use an approved registry"
           file line_num line]
     | none => [])

/-! ## Aggregation (`finding.rs` `AuditReport::from_results`,
`compute_status`, `compute_risk_level`) -/

/-- Rust `str::starts_with` on strings. -/
def strStartsWith (s p : String) : Bool :=
  (dropPrefixExact p.data s.data).isSome

/-- The `compute_status` function of `finding.rs` (lines 302-324):
a single fold tracks the error and warning flags. -/
def compute_status (findings : List Finding) (strict : Bool) : AuditStatus :=
  let flags := findings.foldl (fun (p : Bool × Bool) f =>
    match f.severity with
    | .error => (true, p.2)
    | .warning => (p.1, true)
    | .info => p) (false, false)
  if flags.1 then .failed
  else if flags.2 then
    if strict then .failed else .warning
  else .passed

/-- The `is_rce` test inside `compute_risk_level` (`finding.rs` lines
332-335): an `Error`-severity finding in a critical rule family —
remote code execution (`bash/CAT-A`), reverse shell / backdoor
(`bash/CAT-D`), or prompt injection (`prompt/`). -/
def isRceFinding (f : Finding) : Bool :=
  f.severity == .error &&
    (strStartsWith f.rule_id "bash/CAT-A" ||
     strStartsWith f.rule_id "bash/CAT-D" ||
     strStartsWith f.rule_id "prompt/")

/-- The `compute_risk_level` function of `finding.rs` (lines 326-352):
a single fold tracks the critical, error and warning flags. -/
def compute_risk_level (findings : List Finding) : RiskLevel :=
  let flags := findings.foldl (fun (t : Bool × Bool × Bool) f =>
    (t.1 || isRceFinding f,
     t.2.1 || (f.severity == .error),
     t.2.2 || (f.severity == .warning))) (false, false, false)
  if (flags.1 : Bool) then .critical
  else if flags.2.1 then .high
  else if flags.2.2 then .medium
  else .low

/-- The suppressed clone built inside `from_results` (`finding.rs` lines
201-204). -/
def markSuppressedBy (s : Suppression) (f : Finding) : Finding :=
  { f with suppressed := true, suppression_reason := some s.reason }

/-- The partition loop of `from_results` (`finding.rs` lines 191-209):
an already-suppressed finding goes to the suppressed list unchanged, a
finding with a matching policy entry goes there as a marked clone, and
every other finding stays active.  Source iteration order is preserved. -/
def partitionFindings (supps : List Suppression) :
    List Finding → List Finding × List Finding
  | [] => ([], [])
  | f :: rest =>
    let p := partitionFindings supps rest
    if f.suppressed then (p.1, f :: p.2)
    else
      match find_suppression f supps with
      | some s => (p.1, markSuppressedBy s f :: p.2)
      | none => (f :: p.1, p.2)

/-- All findings of all scanner results, in result order (the nested
loops of `finding.rs` lines 194-209). -/
def collectFindings (results : List ScanResult) : List Finding :=
  results.foldr (fun r acc => r.findings ++ acc) []

/-- Complete audit report for a single skill (`finding.rs`). -/
structure AuditReport where
  skill : String
  version : Option String
  audit_timestamp : String
  status : AuditStatus
  risk_level : RiskLevel
  files_scanned : Nat
  scanner_results : List ScanResult
  findings : List Finding
  suppressed : List Finding
  passed : Bool
deriving DecidableEq, Repr

/-- The `AuditReport::from_results` constructor (`finding.rs` lines
183-227).  The RFC 3339 clock reading (`chrono::Utc::now`) is passed in
as the `timestamp` argument. -/
def from_results (skill : String) (timestamp : String)
    (results : List ScanResult) (suppressions : List Suppression)
    (strict : Bool) : AuditReport :=
  let files_scanned := (results.map (fun r => r.files_scanned)).sum
  let parts := partitionFindings suppressions (collectFindings results)
  let status := compute_status parts.1 strict
  let risk_level := compute_risk_level parts.1
  let passed := status == AuditStatus.passed
  { skill := skill
    version := none
    audit_timestamp := timestamp
    status := status
    risk_level := risk_level
    files_scanned := files_scanned
    scanner_results := results
    findings := parts.1
    suppressed := parts.2
    passed := passed }

/-! ## Remaining helper definitions for the partition theorems -/

/-- The predicate deciding that a finding stays active in `from_results`:
not self-marked suppressed and no matching policy entry. -/
def activeKeep (supps : List Suppression) (f : Finding) : Bool :=
  !f.suppressed && (find_suppression f supps).isNone

/-- The suppressed-list image of a finding: itself when self-marked, the
marked clone when a policy entry matches, and itself otherwise (the last
case never occurs on the suppressed side). -/
def markOf (supps : List Suppression) (f : Finding) : Finding :=
  if f.suppressed then f
  else
    match find_suppression f supps with
    | some s => markSuppressedBy s f
    | none => f

/-! ## Helper lemmas -/

theorem dropPrefixExact_eq_some {p : List Char} :
    ∀ {cs r : List Char}, dropPrefixExact p cs = some r ↔ cs = p ++ r := by
  induction p with
  | nil => intro cs r; simp [dropPrefixExact, eq_comm]
  | cons a ps ih =>
    intro cs r
    cases cs with
    | nil => simp [dropPrefixExact]
    | cons c cs =>
      by_cases h : c = a
      · simp [dropPrefixExact, h, ih]
      · simp [dropPrefixExact, h]

theorem str_data_append (a b : String) : (a ++ b).data = a.data ++ b.data := by
  cases a; cases b; rfl

theorem stripSuffixStr_eq_some {s t p : String} :
    stripSuffixStr s t = some p ↔ s = p ++ t := by
  unfold stripSuffixStr
  constructor
  · intro h
    rcases Option.map_eq_some'.1 h with ⟨r, hr, hp⟩
    have hdata : s.data.reverse = t.data.reverse ++ r := dropPrefixExact_eq_some.1 hr
    have hs : s.data = r.reverse ++ t.data := by
      have := congrArg List.reverse hdata
      simpa using this
    apply String.ext
    rw [str_data_append, hs, ← hp]
  · intro h
    subst h
    have hr : dropPrefixExact t.data.reverse ((p ++ t).data.reverse) =
        some p.data.reverse := by
      apply dropPrefixExact_eq_some.2
      rw [str_data_append]
      simp
    rw [hr]
    simp [Option.map]

theorem bashHostAccept_iff (host entry : String) :
    bashHostAccept host entry = true ↔
      (host = entry ∨
        ∃ p : String, host = p ++ entry ∧ p.data.getLast? = some '.') := by
  unfold bashHostAccept
  rcases hstrip : stripSuffixStr host entry with _ | p
  · simp only [Bool.or_eq_true, beq_iff_eq]
    constructor
    · rintro (h | h)
      · exact Or.inl h
      · simp at h
    · rintro (h | ⟨p, hp, _⟩)
      · exact Or.inl h
      · exact absurd (stripSuffixStr_eq_some.2 hp) (by simp [hstrip])
  · have hp : host = p ++ entry := stripSuffixStr_eq_some.1 hstrip
    simp only [Bool.or_eq_true, beq_iff_eq]
    constructor
    · rintro (h | h)
      · exact Or.inl h
      · rcases hlast : p.data.getLast? with _ | c
        · simp [hlast] at h
        · simp [hlast, beq_iff_eq] at h
          exact Or.inr ⟨p, hp, by rw [hlast, h]⟩
    · rintro (h | ⟨q, hq, hqlast⟩)
      · exact Or.inl h
      · have hqp : q = p := by
          have : q ++ entry = p ++ entry := by rw [← hq, hp]
          have hdata := congrArg String.data this
          rw [str_data_append, str_data_append] at hdata
          exact String.ext (List.append_cancel_right hdata)
        subst hqp
        rw [hqlast]
        simp

theorem anyEntryAccept_iff (host : String) (allowed : List String) :
    bashHostAllowed (allowed.filter (fun e => !(e == ""))) host = true ↔
      ∃ e ∈ allowed, e ≠ "" ∧
        (host = e ∨ ∃ p : String, host = p ++ e ∧ p.data.getLast? = some '.') := by
  unfold bashHostAllowed
  simp [List.any_eq_true, List.mem_filter, bashHostAccept_iff, and_assoc]

theorem domainLoop_iff (entries : List String) :
    ∀ (hosts : List String) (b : Bool), (∀ h ∈ hosts, h ≠ "") →
      (domainLoop entries b hosts = true ↔
        ((b = true ∨ hosts ≠ []) ∧
          ∀ h ∈ hosts, bashHostAllowed entries h = true)) := by
  intro hosts
  induction hosts with
  | nil => intro b _; simp [domainLoop]
  | cons h rest ih =>
    intro b hne
    have hh : ¬(h == "") = true := by
      simpa [beq_iff_eq] using hne h (by simp)
    unfold domainLoop
    rw [if_neg hh]
    rcases hallow : bashHostAllowed entries h with _ | _
    · simp [hallow]
    · rw [if_pos rfl]
      rw [ih true (fun x hx => hne x (by simp [hx]))]
      simp [hallow]

theorem hostFrom_fst_ne_nil {s h r : List Char}
    (hs : hostFrom s = some (h, r)) : h ≠ [] := by
  unfold hostFrom at hs
  rcases htw : s.takeWhile hostChar with _ | ⟨c, t⟩
  · simp only [htw] at hs
    exact absurd hs (by simp)
  · simp only [htw, Option.some.injEq, Prod.mk.injEq] at hs
    rw [← hs.1]
    simp

theorem hostAt_fst_ne_nil {cs h r : List Char} (hs : hostAt cs = some (h, r)) :
    h ≠ [] := by
  unfold hostAt at hs
  split at hs
  · split at hs
    · exact hostFrom_fst_ne_nil hs
    · split at hs
      · exact hostFrom_fst_ne_nil hs
      · simp only [Option.some.injEq, Prod.mk.injEq] at hs
        rw [← hs.1]
        simp
  · exact hostFrom_fst_ne_nil hs

theorem mem_findHostsAux_ne_empty :
    ∀ (fuel : Nat) (cs : List Char) (h : String),
      h ∈ findHostsAux fuel cs → h ≠ "" := by
  intro fuel
  induction fuel with
  | zero => intro cs h hmem; simp [findHostsAux] at hmem
  | succ n ih =>
    intro cs h hmem
    cases cs with
    | nil => simp [findHostsAux] at hmem
    | cons c rest =>
      unfold findHostsAux at hmem
      rcases hscheme : schemeRest (c :: rest) with _ | r
      · simp only [hscheme] at hmem
        exact ih rest h hmem
      · simp only [hscheme] at hmem
        rcases hhost : hostAt r with _ | ⟨hh, after⟩
        · simp only [hhost] at hmem
          exact ih rest h hmem
        · simp only [hhost] at hmem
          rcases List.mem_cons.1 hmem with heq | hmem'
          · subst heq
            have hne := hostAt_fst_ne_nil hhost
            intro hcontra
            apply hne
            have := congrArg String.data hcontra
            simpa [lowerStr] using this
          · exact ih after h hmem'

theorem mem_findHosts_ne_empty (line : String) (h : String)
    (hmem : h ∈ findHosts line) : h ≠ "" :=
  mem_findHostsAux_ne_empty _ _ _ hmem

theorem partitionFindings_eq (supps : List Suppression) (fs : List Finding) :
    partitionFindings supps fs =
      (fs.filter (activeKeep supps),
       (fs.filter (fun f => !(activeKeep supps f))).map (markOf supps)) := by
  induction fs with
  | nil => rfl
  | cons f rest ih =>
    unfold partitionFindings
    rw [ih]
    by_cases hs : f.suppressed
    · simp [activeKeep, markOf, hs]
    · rcases hfind : find_suppression f supps with _ | s
      · simp [activeKeep, markOf, hs, hfind]
      · simp [activeKeep, markOf, hs, hfind]

theorem partitionFindings_length (supps : List Suppression)
    (fs : List Finding) :
    (partitionFindings supps fs).1.length +
      (partitionFindings supps fs).2.length = fs.length := by
  induction fs with
  | nil => rfl
  | cons f rest ih =>
    unfold partitionFindings
    rcases hsup : f.suppressed
    · rcases hfind : find_suppression f supps with _ | s <;>
        simp [hsup, hfind] <;> omega
    · simp [hsup]
      omega

theorem statusFold_eq (fs : List Finding) (p : Bool × Bool) :
    fs.foldl (fun (p : Bool × Bool) f =>
      match f.severity with
      | .error => (true, p.2)
      | .warning => (p.1, true)
      | .info => p) p =
      (p.1 || fs.any (fun f => f.severity == .error),
       p.2 || fs.any (fun f => f.severity == .warning)) := by
  induction fs generalizing p with
  | nil => simp
  | cons f rest ih =>
    rcases hsev : f.severity
    all_goals
      simp only [List.foldl_cons, hsev, ih, List.any_cons]
      simp [hsev, Bool.or_assoc,
        show (Severity.error == Severity.warning) = false by decide,
        show (Severity.warning == Severity.error) = false by decide,
        show (Severity.info == Severity.error) = false by decide,
        show (Severity.info == Severity.warning) = false by decide]

theorem riskFold_eq (fs : List Finding) (t : Bool × Bool × Bool) :
    fs.foldl (fun (t : Bool × Bool × Bool) f =>
      (t.1 || isRceFinding f,
       t.2.1 || (f.severity == .error),
       t.2.2 || (f.severity == .warning))) t =
      (t.1 || fs.any isRceFinding,
       t.2.1 || fs.any (fun f => f.severity == .error),
       t.2.2 || fs.any (fun f => f.severity == .warning)) := by
  induction fs generalizing t with
  | nil => simp
  | cons f rest ih =>
    simp only [List.foldl_cons, ih, List.any_cons]
    simp [Bool.or_assoc]

theorem markOf_suppressed_of_not_active (supps : List Suppression)
    (g : Finding) (h : activeKeep supps g = false) :
    (markOf supps g).suppressed = true := by
  unfold activeKeep at h
  rcases hsg : g.suppressed
  · rcases hgo : find_suppression g supps with _ | sg
    · rw [hsg, hgo] at h
      simp at h
    · simp [markOf, hsg, hgo, markSuppressedBy]
  · simp [markOf, hsg]

/-! ## Claim theorems -/

/-- C1: suppression file matching is by path components, never raw
substrings — for a finding and a suppression entry with equal rule ids, a
match requires the entry's file to be a path-component suffix of the
finding's file when the finding has one (entry `"test.sh"` matches
`/a/b/test.sh` but never `/a/b/maltest.sh`, and an empty entry file
matches any file), and requires the entry's file to be empty when the
finding has none. -/
theorem c1_suppression_path_component_matching (f : Finding)
    (s : Suppression) (_hrule : s.rule = f.rule_id) :
    (∀ file, f.file = some file → suppressionMatches f s = true →
      pathEndsWith file s.file = true) ∧
    (f.file = none → suppressionMatches f s = true → s.file = "") ∧
    pathEndsWith "/a/b/test.sh" "test.sh" = true ∧
    pathEndsWith "/a/b/maltest.sh" "test.sh" = false ∧
    (∀ file, pathEndsWith file "" = true) := by
  refine ⟨?_, ?_, by decide, by decide, ?_⟩
  · intro file hfile hm
    unfold suppressionMatches at hm
    rw [hfile] at hm
    simp only [Bool.and_eq_true] at hm
    exact hm.1.2
  · intro hfile hm
    unfold suppressionMatches at hm
    rw [hfile] at hm
    simp only [Bool.and_eq_true, beq_iff_eq] at hm
    exact hm.1.2
  · intro file
    have hempty : pathComponents "" = [] := by decide
    unfold pathEndsWith
    rw [hempty]
    simp [List.isSuffixOf, List.isPrefixOf]

/-- C1 witness: a concrete suppression entry on `test.sh` matching a
concrete finding at `/a/b/test.sh`, instantiating the theorem. -/
theorem c1_witness :
    pathEndsWith "/a/b/test.sh" "test.sh" = true ∧
    pathEndsWith "/a/b/maltest.sh" "test.sh" = false := by
  have h := c1_suppression_path_component_matching
    { rule_id := "bash/CAT-A1", message := "m", severity := .error,
      file := some "/a/b/test.sh", line := some 3, column := none,
      scanner := "bash_patterns", snippet := none, suppressed := false,
      suppression_reason := none, remediation := none }
    { rule := "bash/CAT-A1", file := "test.sh", lines := none,
      reason := "r", ticket := none }
    (by decide)
  exact ⟨h.2.2.1, h.2.2.2.1⟩

/-- C4: a line-ranged suppression entry matches a line-bearing finding
only when the range string parses (single integer, or two dash-separated
integers with start at most end) and the finding's line lies inside the
inclusive range; an unparsable or inverted range never matches (fails
closed), while `"50-100"` matches line 75 and not line 101. -/
theorem c4_line_range_fails_closed (s : Suppression) (f : Finding)
    (ls : String) (n : Nat) (h1 : s.lines = some ls)
    (h2 : f.line = some n) :
    (suppressionMatches f s = true →
      ∃ a b, parse_line_range ls = some (a, b) ∧ a ≤ n ∧ n ≤ b) ∧
    (parse_line_range ls = none → suppressionMatches f s = false) ∧
    parse_line_range "100-50" = none ∧
    parse_line_range "50-100" = some (50, 100) ∧
    parse_line_range "75" = some (75, 75) ∧
    parse_line_range "1-2-3" = none ∧
    parse_line_range "abc" = none ∧
    (50 ≤ (75 : Nat) ∧ (75 : Nat) ≤ 100) ∧
    ¬(101 : Nat) ≤ 100 := by
  refine ⟨?_, ?_, by decide, by decide, by decide, by decide, by decide,
    by decide, by decide⟩
  · intro hm
    unfold suppressionMatches at hm
    rw [h1, h2] at hm
    simp only [Bool.and_eq_true] at hm
    rcases hparse : parse_line_range ls with _ | ⟨a, b⟩
    · rw [hparse] at hm
      simp at hm
    · rw [hparse] at hm
      have := hm.2
      simp only [Bool.and_eq_true, decide_eq_true_eq] at this
      exact ⟨a, b, rfl, this.1, this.2⟩
  · intro hparse
    unfold suppressionMatches
    rw [h1, h2]
    simp [hparse]

/-- C4 witness: the inverted range `"100-50"` suppresses nothing and the
valid range `"50-100"` constrains a finding at line 75, instantiating the
theorem at concrete records. -/
theorem c4_witness :
    suppressionMatches
      { rule_id := "r", message := "", severity := .info, file := some "a.sh",
        line := some 75, column := none, scanner := "s", snippet := none,
        suppressed := false, suppression_reason := none, remediation := none }
      { rule := "r", file := "a.sh", lines := some "100-50", reason := "x",
        ticket := none } = false := by
  have h := c4_line_range_fails_closed
    { rule := "r", file := "a.sh", lines := some "100-50", reason := "x",
      ticket := none }
    { rule_id := "r", message := "", severity := .info, file := some "a.sh",
      line := some 75, column := none, scanner := "s", snippet := none,
      suppressed := false, suppression_reason := none, remediation := none }
    "100-50" 75 rfl rfl
  exact h.2.1 (by decide)

/-- C10: a suppression entry with a `lines` range matches a finding that
has no line number whenever the rule and file checks pass — the range
condition is evaluated only when the finding carries a line, so it holds
vacuously for line-less findings. -/
theorem c10_lines_entry_matches_lineless_finding (s : Suppression)
    (f : Finding) (ls : String) (h1 : s.lines = some ls)
    (h2 : f.line = none) (h3 : s.rule = f.rule_id)
    (h4 : match f.file with
          | some file => pathEndsWith file s.file = true
          | none => s.file = "") :
    suppressionMatches f s = true ∧ find_suppression f [s] = some s := by
  have hm : suppressionMatches f s = true := by
    unfold suppressionMatches
    rw [h1, h2]
    simp only [Bool.and_eq_true, beq_iff_eq]
    refine ⟨⟨h3, ?_⟩, trivial⟩
    rcases hfile : f.file with _ | file
    · rw [hfile] at h4
      simp [h4]
    · rw [hfile] at h4
      exact h4
  refine ⟨hm, ?_⟩
  unfold find_suppression
  simp [List.find?, hm]

/-- C10 witness: a concrete line-targeted entry suppressing a concrete
line-less finding of the same rule and file. -/
theorem c10_witness :
    suppressionMatches
      { rule_id := "shellcheck/SC1000", message := "", severity := .warning,
        file := some "/skill/run.sh", line := none, column := none,
        scanner := "shellcheck", snippet := none, suppressed := false,
        suppression_reason := none, remediation := none }
      { rule := "shellcheck/SC1000", file := "run.sh", lines := some "10-20",
        reason := "reviewed", ticket := none } = true := by
  have h := c10_lines_entry_matches_lineless_finding
    { rule := "shellcheck/SC1000", file := "run.sh", lines := some "10-20",
      reason := "reviewed", ticket := none }
    { rule_id := "shellcheck/SC1000", message := "", severity := .warning,
      file := some "/skill/run.sh", line := none, column := none,
      scanner := "shellcheck", snippet := none, suppressed := false,
      suppression_reason := none, remediation := none }
    "10-20" rfl rfl rfl (by decide)
  exact h.1

/-- C6: status is Failed when any active finding has Error severity, else
Failed when strict mode meets any Warning, else Warning when any Warning
exists, else Passed; risk is Critical when an active Error belongs to a
critical rule family (`bash/CAT-A` remote code execution, `bash/CAT-D`
reverse shells, `prompt/` prompt injection), else High on any Error, else
Medium on any Warning, else Low; and the report's `passed` flag holds
exactly when its status is Passed. -/
theorem c6_status_and_risk_derivation (findings : List Finding)
    (strict : Bool) (skill timestamp : String) (results : List ScanResult)
    (supps : List Suppression) (strict2 : Bool) :
    compute_status findings strict =
      (if findings.any (fun f => f.severity == Severity.error) then
        AuditStatus.failed
       else if findings.any (fun f => f.severity == Severity.warning) then
        (if strict then AuditStatus.failed else AuditStatus.warning)
       else AuditStatus.passed) ∧
    compute_risk_level findings =
      (if findings.any isRceFinding then RiskLevel.critical
       else if findings.any (fun f => f.severity == Severity.error) then
        RiskLevel.high
       else if findings.any (fun f => f.severity == Severity.warning) then
        RiskLevel.medium
       else RiskLevel.low) ∧
    ((from_results skill timestamp results supps strict2).passed = true ↔
      (from_results skill timestamp results supps strict2).status =
        AuditStatus.passed) := by
  refine ⟨?_, ?_, ?_⟩
  · unfold compute_status
    rw [statusFold_eq]
    simp
  · unfold compute_risk_level
    rw [riskFold_eq]
    simp
  · simp only [from_results]
    exact beq_iff_eq

/-- C5: `from_results` places every finding emitted by the scanners in
exactly one of the report's active list and suppressed list — the two
lengths add up to the number of emitted findings, and each emitted
finding lands in the active list exactly when it is neither self-marked
nor matched by a policy entry, otherwise its marked image lands in the
suppressed list (and never both). -/
theorem c5_report_partitions_findings (skill timestamp : String)
    (results : List ScanResult) (supps : List Suppression) (strict : Bool)
    (f : Finding) (hf : f ∈ collectFindings results) :
    ((from_results skill timestamp results supps strict).findings.length +
      (from_results skill timestamp results supps strict).suppressed.length =
      (collectFindings results).length) ∧
    (((f ∈ (from_results skill timestamp results supps strict).findings) ∧
      markOf supps f ∉
        (from_results skill timestamp results supps strict).suppressed) ∨
     ((f ∉ (from_results skill timestamp results supps strict).findings) ∧
      markOf supps f ∈
        (from_results skill timestamp results supps strict).suppressed)) := by
  have hfind : (from_results skill timestamp results supps strict).findings =
      (collectFindings results).filter (activeKeep supps) := by
    simp [from_results, partitionFindings_eq]
  have hsupp : (from_results skill timestamp results supps strict).suppressed =
      ((collectFindings results).filter
        (fun g => !(activeKeep supps g))).map (markOf supps) := by
    simp [from_results, partitionFindings_eq]
  constructor
  · simp only [from_results]
    exact partitionFindings_length supps (collectFindings results)
  · rw [hfind, hsupp]
    by_cases ha : activeKeep supps f = true
    · left
      constructor
      · exact List.mem_filter.2 ⟨hf, ha⟩
      · intro hmem
        rcases List.mem_map.1 hmem with ⟨g, hg, hgf⟩
        rcases List.mem_filter.1 hg with ⟨_, hgk⟩
        have hfa : f.suppressed = false ∧ find_suppression f supps = none := by
          unfold activeKeep at ha
          simp only [Bool.and_eq_true, Bool.not_eq_true',
            Option.isNone_iff_eq_none] at ha
          exact ha
        have hmf : markOf supps f = f := by
          unfold markOf
          rw [hfa.1, hfa.2]
          simp
        have hgk2 : activeKeep supps g = false := by
          simpa using hgk
        have hsup := markOf_suppressed_of_not_active supps g hgk2
        rw [hgf, hmf, hfa.1] at hsup
        exact Bool.false_ne_true hsup
    · right
      have ha' : activeKeep supps f = false := by
        rcases hb : activeKeep supps f with _ | _
        · rfl
        · exact absurd hb ha
      constructor
      · intro hmem
        exact ha (List.mem_filter.1 hmem).2
      · exact List.mem_map.2 ⟨f, List.mem_filter.2 ⟨hf, by simp [ha']⟩, rfl⟩

/-- C5 witness: a two-finding run — one finding matched by a policy entry
and one untouched — instantiating the partition theorem. -/
theorem c5_witness :
    ((from_results "skill" "t"
        [{ scanner_name := "bash_patterns",
           findings :=
             [{ rule_id := "bash/CAT-A1", message := "m", severity := .error,
                file := some "a.sh", line := some 1, column := none,
                scanner := "bash_patterns", snippet := none,
                suppressed := false, suppression_reason := none,
                remediation := none },
              { rule_id := "bash/CAT-B1", message := "m", severity := .error,
                file := some "b.sh", line := some 2, column := none,
                scanner := "bash_patterns", snippet := none,
                suppressed := false, suppression_reason := none,
                remediation := none }],
           files_scanned := 2, skipped := false, skip_reason := none,
           error := none, duration_ms := 0 }]
        [{ rule := "bash/CAT-A1", file := "a.sh", lines := none,
           reason := "ok", ticket := none }] false).findings.length +
      (from_results "skill" "t"
        [{ scanner_name := "bash_patterns",
           findings :=
             [{ rule_id := "bash/CAT-A1", message := "m", severity := .error,
                file := some "a.sh", line := some 1, column := none,
                scanner := "bash_patterns", snippet := none,
                suppressed := false, suppression_reason := none,
                remediation := none },
              { rule_id := "bash/CAT-B1", message := "m", severity := .error,
                file := some "b.sh", line := some 2, column := none,
                scanner := "bash_patterns", snippet := none,
                suppressed := false, suppression_reason := none,
                remediation := none }],
           files_scanned := 2, skipped := false, skip_reason := none,
           error := none, duration_ms := 0 }]
        [{ rule := "bash/CAT-A1", file := "a.sh", lines := none,
           reason := "ok", ticket := none }] false).suppressed.length = 2) := by
  have h := c5_report_partitions_findings "skill" "t"
    [{ scanner_name := "bash_patterns",
       findings :=
         [{ rule_id := "bash/CAT-A1", message := "m", severity := .error,
            file := some "a.sh", line := some 1, column := none,
            scanner := "bash_patterns", snippet := none,
            suppressed := false, suppression_reason := none,
            remediation := none },
          { rule_id := "bash/CAT-B1", message := "m", severity := .error,
            file := some "b.sh", line := some 2, column := none,
            scanner := "bash_patterns", snippet := none,
            suppressed := false, suppression_reason := none,
            remediation := none }],
       files_scanned := 2, skipped := false, skip_reason := none,
       error := none, duration_ms := 0 }]
    [{ rule := "bash/CAT-A1", file := "a.sh", lines := none,
       reason := "ok", ticket := none }] false
    { rule_id := "bash/CAT-A1", message := "m", severity := .error,
      file := some "a.sh", line := some 1, column := none,
      scanner := "bash_patterns", snippet := none, suppressed := false,
      suppression_reason := none, remediation := none }
    (by decide)
  exact h.1

/-- C2: host extraction and allowlist matching are spoof-resistant — a
host passes the allowlist exactly when it equals a non-empty entry or
stripping the entry as a suffix leaves a prefix ending in `.`; and the
extraction modelled from RE_URL_HOST yields `github.com.evil.com` (not
allowed for `{github.com}`), strips userinfo to `github.com` (allowed),
cuts the port off `github.com:443` (allowed), stops at `#` so
`evil.com#.github.com` yields `evil.com` (not allowed), and on an empty
post-`@` host backtracks out of the userinfo group so `https://user@/x`
yields `user@`. -/
theorem c2_host_extraction_spoof_resistant :
    (∀ (host : String) (allowed : List String),
      bashHostAllowed (allowed.filter (fun e => !(e == ""))) host = true ↔
        ∃ e ∈ allowed, e ≠ "" ∧
          (host = e ∨
            ∃ p : String, host = p ++ e ∧ p.data.getLast? = some '.')) ∧
    findHosts "https://github.com.evil.com/x" = ["github.com.evil.com"] ∧
    bashHostAllowed ["github.com"] "github.com.evil.com" = false ∧
    findHosts "https://user@github.com/x" = ["github.com"] ∧
    bashHostAllowed ["github.com"] "github.com" = true ∧
    findHosts "https://github.com:443/x" = ["github.com"] ∧
    bashHostAllowed ["github.com"] "github.com" = true ∧
    findHosts "https://evil.com#.github.com" = ["evil.com"] ∧
    bashHostAllowed ["github.com"] "evil.com" = false ∧
    findHosts "https://user@/x" = ["user@"] := by
  refine ⟨anyEntryAccept_iff, by decide, by decide, by decide, by decide,
    by decide, by decide, by decide, by decide, by decide⟩

/-- C7 counterexample: the two allowlist decisions are not identical on
every URL string — RE_REGISTRY_URL can capture a `url_str` bearing two
extractable hosts, the registry check consults only the first, and the
domain check requires every host, so on `https://a#https://b` with
allowlist `{a}` the registry check allows while `domain_is_allowed`
rejects. -/
theorem c7_counterexample :
    registryUrlCapture "npm install --registry https://a#https://b" =
      some "https://a#https://b" ∧
    findHosts "https://a#https://b" = ["a", "b"] ∧
    pkgRegistryHostAllowed "https://a#https://b" ["a"] = true ∧
    domain_is_allowed "https://a#https://b" ["a"] = false := by
  refine ⟨by decide, by decide, by decide, by decide⟩

/-- C7 amended: the outbound-HTTP host allowlist check and the
package-registry allowlist check share their host machinery — the
per-entry acceptance predicates duplicated at the two code sites agree on
every host and entry, the registry decision is exactly "the first
extracted host of the URL passes the shared acceptance test", and on any
URL string bearing at most one extractable host (every URL without a
second embedded scheme) the two line-level decisions coincide; they can
diverge only on URL strings carrying several extractable hosts. -/
theorem c7_domain_and_registry_checks_agree (url : String)
    (registries : List String) (hone : (findHosts url).length ≤ 1) :
    (∀ host entry, bashHostAccept host entry = pkgHostAccept host entry) ∧
    (pkgRegistryHostAllowed url registries = true ↔
      ∃ h, (findHosts url).head? = some h ∧
        bashHostAllowed (registries.filter (fun e => !(e == ""))) h = true) ∧
    pkgRegistryHostAllowed url registries = domain_is_allowed url registries := by
  refine ⟨fun host entry => rfl, ?_, ?_⟩
  · unfold pkgRegistryHostAllowed
    rcases hh : findHosts url with _ | ⟨h, t⟩
    · simp
    · have hne : h ≠ "" := mem_findHosts_ne_empty url h (by rw [hh]; simp)
      simp only [List.head?_cons, Option.getD_some, Option.some.injEq]
      constructor
      · intro hand
        simp only [Bool.and_eq_true] at hand
        exact ⟨h, rfl, hand.2⟩
      · rintro ⟨h2, rfl, hallow⟩
        simp only [Bool.and_eq_true]
        exact ⟨by simpa using hne, hallow⟩
  · have hpkg : ∀ hs : List String, findHosts url = hs →
        pkgRegistryHostAllowed url registries =
          (!((hs.head?).getD "" == "") &&
            (registries.filter (fun r => !(r == ""))).any
              (fun entry => pkgHostAccept ((hs.head?).getD "") entry)) := by
      intro hs hhs
      unfold pkgRegistryHostAllowed
      rw [hhs]
    have hdom : ∀ hs : List String, findHosts url = hs →
        domain_is_allowed url registries =
          domainLoop (registries.filter (fun entry => !(entry == "")))
            false hs := by
      intro hs hhs
      unfold domain_is_allowed
      rw [hhs]
    rcases hh : findHosts url with _ | ⟨h, t⟩
    · rw [hpkg [] hh, hdom [] hh]
      simp [domainLoop]
    · have ht : t = [] := by
        rw [hh] at hone
        simp at hone
        exact hone
      subst ht
      have hne : h ≠ "" := mem_findHosts_ne_empty url h (by rw [hh]; simp)
      have hne2 : (h == "") = false := by simpa using hne
      rw [hpkg [h] hh, hdom [h] hh]
      unfold domainLoop
      rw [if_neg (by simp [hne2])]
      simp only [List.head?_cons, Option.getD_some, hne2, Bool.not_false,
        Bool.true_and]
      have hsame : (registries.filter (fun r => !(r == ""))).any
            (fun entry => pkgHostAccept h entry) =
          bashHostAllowed (registries.filter (fun entry => !(entry == ""))) h :=
        rfl
      rw [hsame]
      rcases hb :
          bashHostAllowed (registries.filter (fun entry => !(entry == ""))) h
      · rw [if_neg (by simp [hb])]
      · rw [if_pos (by simp [hb])]
        rfl

/-- C7 witness: the registry URL `https://registry.npmjs.org/` under the
allowlist `{registry.npmjs.org}`, instantiating the agreement theorem. -/
theorem c7_witness :
    pkgRegistryHostAllowed "https://registry.npmjs.org/"
        ["registry.npmjs.org"] =
      domain_is_allowed "https://registry.npmjs.org/"
        ["registry.npmjs.org"] :=
  (c7_domain_and_registry_checks_agree "https://registry.npmjs.org/"
    ["registry.npmjs.org"] (by decide)).2.2

/-- C3 counterexample: on the line `curl https://` the CAT-H1 pattern
matches and the line carries zero extractable URL hostnames — so every
hostname on it (vacuously) resolves to an allowed domain — yet the
finding is emitted, not discarded. -/
theorem c3_counterexample :
    reCatH1Match "curl https://" = true ∧
    findHosts "curl https://" = [] ∧
    commentSkip "curl https://" = false ∧
    is_suppressed_inline "curl https://" = false ∧
    (bashLineFindings [catH1Rule] ["github.com"] "install.sh" 1
        "curl https://").map (fun f => f.rule_id) = ["bash/CAT-H1"] := by
  refine ⟨by decide, by decide, by decide, by decide, by decide⟩

/-- C3 amended: on a non-skipped line where the CAT-H1 pattern matches,
the finding is discarded exactly when the line carries at least one
extractable URL hostname and every one of them resolves to an allowed
domain; with zero extractable hostnames the rule still fires, and a mix
of allowed and disallowed hosts still fires. -/
theorem c3_network_rule_requires_all_hosts_allowed (domains : List String)
    (file : String) (n : Nat) (line : String)
    (h1 : commentSkip line = false) (h2 : is_suppressed_inline line = false)
    (h3 : reCatH1Match line = true) :
    bashLineFindings [catH1Rule] domains file n line = [] ↔
      (findHosts line ≠ [] ∧ ∀ h ∈ findHosts line,
        bashHostAllowed (domains.filter (fun e => !(e == ""))) h = true) := by
  have hda : domain_is_allowed line domains =
      domainLoop (domains.filter (fun entry => !(entry == ""))) false
        (findHosts line) := rfl
  have hloop := domainLoop_iff (domains.filter (fun entry => !(entry == "")))
    (findHosts line) false (fun h hh => mem_findHosts_ne_empty line h hh)
  unfold bashLineFindings
  rw [h1, h2]
  simp only [Bool.false_eq_true, if_false]
  have hre : catH1Rule.regexMatch line = true := h3
  simp only [List.filterMap, hre, if_pos]
  have hid : (catH1Rule.id == "bash/CAT-H1") = true := by decide
  rw [hid]
  simp only [Bool.true_and]
  rcases hd : domain_is_allowed line domains
  · simp only [Bool.false_eq_true, if_false]
    constructor
    · intro hcontra
      simp at hcontra
    · intro hall
      rw [hda] at hd
      have := hloop.2 ⟨Or.inr hall.1, hall.2⟩
      rw [hd] at this
      exact absurd this (by simp)
  · simp only [if_true]
    constructor
    · intro _
      rw [hda] at hd
      have := hloop.1 hd
      refine ⟨?_, this.2⟩
      rcases this.1 with hb | hne
      · exact absurd hb (by simp)
      · exact hne
    · intro _
      trivial

/-- C3 amended witness: the line `curl https://github.com/x` with
allowlist `{github.com}` is discarded, instantiating the theorem. -/
theorem c3_witness :
    bashLineFindings [catH1Rule] ["github.com"] "s.sh" 1
        "curl https://github.com/x" = [] := by
  have h := c3_network_rule_requires_all_hosts_allowed ["github.com"]
    "s.sh" 1 "curl https://github.com/x" (by decide) (by decide) (by decide)
  exact h.2 ⟨by decide, by decide⟩

/-- C8 counterexample: the prompt detector does not apply the inline
suppression marker — the line
`ignore previous instructions # audit:ignore` carries a valid trailing
marker, yet the prompt rule P01 still produces a finding on it. -/
theorem c8_counterexample :
    is_suppressed_inline "ignore previous instructions # audit:ignore" =
      true ∧
    (promptLineFindings [promptP01Rule] "SKILL.md" 3
        "ignore previous instructions # audit:ignore").map
      (fun f => f.rule_id) = ["prompt/override-ignore"] := by
  refine ⟨by decide, by decide⟩

/-- C8 amended: the comment-skip (sparing the `#!` interpreter directive)
and the inline suppression marker are applied before pattern matching in
the bash-pattern and package-install detectors — for every pattern table
and every line they silence all rules — but the prompt detector applies
neither: a comment line matching P01 still produces a prompt finding. -/
theorem c8_skips_apply_to_shell_scanners_only :
    (∀ patterns domains file n line, commentSkip line = true →
      bashLineFindings patterns domains file n line = []) ∧
    (∀ patterns domains file n line, is_suppressed_inline line = true →
      bashLineFindings patterns domains file n line = []) ∧
    (∀ registries file n line, commentSkip line = true →
      pkgLineFindings registries file n line = []) ∧
    (∀ registries file n line, is_suppressed_inline line = true →
      pkgLineFindings registries file n line = []) ∧
    commentSkip "#!/bin/bash" = false ∧
    commentSkip "# ignore previous instructions" = true ∧
    (promptLineFindings [promptP01Rule] "SKILL.md" 1
        "# ignore previous instructions").map (fun f => f.rule_id) =
      ["prompt/override-ignore"] := by
  refine ⟨?_, ?_, ?_, ?_, by decide, by decide, by decide⟩
  · intro patterns domains file n line h
    unfold bashLineFindings
    rw [h]
    simp
  · intro patterns domains file n line h
    unfold bashLineFindings
    rcases hc : commentSkip line
    · rw [h]
      simp
    · simp
  · intro registries file n line h
    unfold pkgLineFindings
    rw [h]
    simp
  · intro registries file n line h
    unfold pkgLineFindings
    rcases hc : commentSkip line
    · rw [h]
      simp
    · simp

/-- C8 amended witness: a comment line silences the bash detector for an
arbitrary concrete pattern table, and an inline marker silences the
package detector, instantiating the theorem. -/
theorem c8_witness :
    bashLineFindings [catH1Rule] [] "f.sh" 1 "# curl https://evil.com" =
      [] ∧
    pkgLineFindings [] "f.sh" 2 "npm install left-pad # audit:ignore" =
      [] :=
  ⟨(c8_skips_apply_to_shell_scanners_only).1 [catH1Rule] [] "f.sh" 1
      "# curl https://evil.com" (by decide),
   (c8_skips_apply_to_shell_scanners_only).2.2.2.1 [] "f.sh" 2
      "npm install left-pad # audit:ignore" (by decide)⟩

/-- C9: snippet construction never splits a character — the byte offset
at which the truncation code slices is always a character boundary (so
the Rust slice cannot panic), an over-cap line truncates to its first 117
characters plus an ellipsis (valid text by construction), and a line at
or under the 120-byte cap is kept whole; the same holds for the
trim-first `make_snippet` variant. -/
theorem c9_snippet_truncation_safe (line : String) :
    isCharBoundary line (cutIndex line) ∧
    (byteLen line > 120 →
      (truncateSnippet line).data = line.data.take 117 ++ "...".data) ∧
    (byteLen line ≤ 120 → truncateSnippet line = line) ∧
    (byteLen (trimStr line) > 120 →
      (make_snippet line).data = (trimStr line).data.take 117 ++ "...".data) ∧
    (byteLen (trimStr line) ≤ 120 → make_snippet line = trimStr line) := by
  refine ⟨?_, ?_, ?_, ?_, ?_⟩
  · unfold cutIndex
    by_cases h : line.data.length > 117
    · rw [if_pos h]
      exact ⟨117, rfl⟩
    · rw [if_neg h]
      exact ⟨line.data.length, by rw [List.take_length]⟩
  · intro h
    unfold truncateSnippet
    rw [if_pos h, str_data_append]
  · intro h
    unfold truncateSnippet
    rw [if_neg (by omega)]
  · intro h
    unfold make_snippet
    rw [if_pos h, str_data_append]
  · intro h
    unfold make_snippet
    rw [if_neg (by omega)]

/-- C9 witness: a 122-byte line of 61 two-byte characters — over the
cap but with fewer than 117 characters — truncates without splitting a
character, instantiating the theorem. -/
theorem c9_witness :
    byteLen (String.mk (List.replicate 61 'α')) > 120 ∧
    (truncateSnippet (String.mk (List.replicate 61 'α'))).data =
      (String.mk (List.replicate 61 'α')).data.take 117 ++ "...".data :=
  ⟨by decide,
   (c9_snippet_truncation_safe (String.mk (List.replicate 61 'α'))).2.1
     (by decide)⟩
